import Mathlib

/-!
Verification development for a batch LaTeX-equation-to-PNG converter
(`create_png.py`).  The Python program is shallowly embedded:

* the tabular input file is a `List (List String)` of rows (wrapped in
  `Option` so an unopenable file is representable);
* the output directory is the `List String` of file names existing in it;
* an external process invocation is summarised by a `ProcOutcome`
  (launch failure, or termination with an exit code) supplied by an
  oracle, and the observable behaviour of the pipeline is a list of
  `Event`s plus an optional uncaught Python exception;
* `str.replace`, the filename collision loop and `Nat.repr` are modelled
  by executable (fuel-based structural) recursions.
-/

namespace LatexToPng

/-! ## Record loader (`read_equation_list`) -/

/-- Exceptions the loader can raise: the file cannot be opened
(`IOError`), `next(reader)` on an empty file (`StopIteration`), or an
out-of-range field access (`IndexError`). -/
inductive LoadError where
  | ioError
  | stopIteration
  | indexError
deriving DecidableEq, Repr

/-- Embedding of Python's `str.strip()`: remove leading and trailing
whitespace. -/
def pyStrip (s : String) : String :=
  String.mk (((s.data.dropWhile Char.isWhitespace).reverse.dropWhile Char.isWhitespace).reverse)

/-- The record a row contributes: `some (body, requestedName)` when the
row's field 0 is the literal `"1"` and it has at least three fields
(`row[1].strip()`, `row[2].strip()`), `none` otherwise. -/
def rowRecord (r : List String) : Option (String × String) :=
  match r with
  | flag :: b :: n :: _ => if flag = "1" then some (pyStrip b, pyStrip n) else none
  | _ => none

/-- The loader's loop over the non-header rows.  A row is consulted
left-to-right exactly as `row[0] == "1"`, `row[1]`, `row[2]` are in the
source: an empty row raises on `row[0]`, and a row whose flag is `"1"`
but which has fewer than three fields raises on `row[1]` or `row[2]`. -/
def readRows : List (List String) → Except LoadError (List (String × String))
  | [] => Except.ok []
  | r :: rs =>
    match r with
    | [] => Except.error LoadError.indexError
    | flag :: rest =>
      if flag = "1" then
        match rest with
        | b :: n :: _ =>
          match readRows rs with
          | Except.ok tl => Except.ok ((pyStrip b, pyStrip n) :: tl)
          | Except.error e => Except.error e
        | _ => Except.error LoadError.indexError
      else readRows rs

/-- Embedding of `EquationProcessor.read_equation_list`: `none` stands
for a file that cannot be opened; `next(reader)` drops the header row
and raises `StopIteration` when there is none. -/
def read_equation_list : Option (List (List String)) → Except LoadError (List (String × String))
  | none => Except.error LoadError.ioError
  | some [] => Except.error LoadError.stopIteration
  | some (_ :: rows) => readRows rows

/-! ## Filename sanitisation (`clean_filename`) -/

/-- Characters kept by the regex `[^a-zA-Z0-9_.]` substitution. -/
def isAllowedChar (c : Char) : Bool :=
  decide (('a' ≤ c ∧ c ≤ 'z') ∨ ('A' ≤ c ∧ c ≤ 'Z') ∨ ('0' ≤ c ∧ c ≤ '9') ∨ c = '_' ∨ c = '.')

/-- Embedding of `EquationProcessor.clean_filename`: drop every
character outside `A-Z`, `a-z`, `0-9`, underscore and dot. -/
def clean_filename (s : String) : String :=
  String.mk (s.data.filter isAllowedChar)

/-! ## Document templating (`wrap_equation_in_latex`) -/

/-- Embedding of Python's `color.lstrip("#")`: remove every leading
`'#'` character. -/
def lstripHash (s : String) : String :=
  String.mk (s.data.dropWhile (fun c => c == '#'))

/-- Template text before the colour substitution point. -/
def latexTemplatePre : String :=
  "\n        \\documentclass[border=1pt]\x7bstandalone\x7d\n        \\usepackage\x7bamsmath\x7d\n        \\usepackage\x7bxfrac\x7d\n        \\usepackage\x7bgfsneohellenicot\x7d\n        \\usepackage\x7bxcolor\x7d\n        \\definecolor\x7bequationcolor\x7d\x7bHTML\x7d\x7b"

/-- Template text between the colour and the equation body. -/
def latexTemplateMid : String :=
  "\x7d\n        \\begin\x7bdocument\x7d\n        \\setbox0\\hbox\x7b\\Large \\textcolor\x7bequationcolor\x7d\x7b$"

/-- Template text after the equation body. -/
def latexTemplatePost : String :=
  "$\x7d\x7d\n        \\dimen0=12mm\n        \\ifdim\\ht0<\\dimen0\n        \\ht0=\\dimen0\n        \\fi\n        \\ifdim\\dp0<5mm\n        \\dp0=5mm\n        \\fi\n        \\box0\n        \\end\x7bdocument\x7d"

/-- Embedding of `EquationProcessor.wrap_equation_in_latex`: the colour
is `lstrip`-ped of leading `#` and substituted into the fixed template
together with the equation body. -/
def wrap_equation_in_latex (equation color : String) : String :=
  let color_code := lstripHash color
  latexTemplatePre ++ color_code ++ latexTemplateMid ++ equation ++ latexTemplatePost

/-! ## Filename allocation (the `while os.path.exists` loop) -/

/-- Document-source extension. -/
def texExt : String := ".tex"

/-- Page-description extension. -/
def pdfExt : String := ".pdf"

/-- Raster-image extension. -/
def pngExt : String := ".png"

/-- The initial candidate file name `base_filename + ".tex"`. -/
def texName (base : String) : String := base ++ texExt

/-- The `k`-th probed file name, `f"{base_filename}_{increment}.tex"`. -/
def probeName (base : String) (k : Nat) : String :=
  base ++ "_" ++ Nat.repr k ++ texExt

/-- The probing loop body: try `probeName base k`, `probeName base
(k+1)`, … until a name not present in the directory is found.  `fuel`
bounds the number of probes; `none` models the (never reached)
exhaustion of the bound. -/
def allocateTexAux (base : String) (dir : List String) : Nat → Nat → Option String
  | 0, _ => none
  | fuel + 1, k =>
    if probeName base k ∈ dir then allocateTexAux base dir fuel (k + 1)
    else some (probeName base k)

/-- Embedding of the collision-resolution loop of
`process_equations`: return `base + ".tex"` if no such file exists in
the output directory, else probe `base_1.tex`, `base_2.tex`, … -/
def allocateTex (base : String) (dir : List String) (fuel : Nat) : Option String :=
  if texName base ∈ dir then allocateTexAux base dir fuel 1
  else some (texName base)

/-! ## Path derivation (`str.replace(".tex", …)` on the full path) -/

/-- Left-to-right, non-overlapping replacement of `p` by `r`, the
semantics of Python's `str.replace` for a nonempty pattern `p`.  `fuel`
only needs to reach the length of the scanned list. -/
def replaceAllAux (p r : List Char) : Nat → List Char → List Char
  | 0, s => s
  | _ + 1, [] => []
  | fuel + 1, c :: cs =>
    if p.isPrefixOf (c :: cs) then r ++ replaceAllAux p r fuel ((c :: cs).drop p.length)
    else c :: replaceAllAux p r fuel cs

/-- Embedding of Python's `s.replace(p, r)` for nonempty `p`. -/
def pyReplace (s p r : String) : String :=
  String.mk (replaceAllAux p.data r.data s.data.length s.data)

/-- Embedding of `os.path.join(dir, name)` on a POSIX system. -/
def joinPath (dir name : String) : String := dir ++ "/" ++ name

/-- Embedding of `tex_file_path.replace(".tex", ".pdf")`. -/
def pdfPathOf (texPath : String) : String := pyReplace texPath texExt pdfExt

/-- Embedding of `tex_file_path.replace(".tex", ".png")`. -/
def pngPathOf (texPath : String) : String := pyReplace texPath texExt pngExt

/-- Decides whether `p` occurs as a contiguous sublist of `s`. -/
def containsSub (p : List Char) : List Char → Bool
  | [] => p.isEmpty
  | c :: cs => p.isPrefixOf (c :: cs) || containsSub p cs

/-! ## Subprocess orchestration and the per-record pipeline -/

/-- Outcome of attempting to run one external executable. -/
inductive ProcOutcome where
  | launchFailure
  | exit (code : Nat)
deriving DecidableEq, Repr

/-- Uncaught Python exceptions the pipeline can surface. -/
inductive PyExn where
  | fileNotFoundError
  | permissionError
deriving DecidableEq, Repr

/-- Observable per-record events (file writes and log lines). -/
inductive Event where
  | wroteDoc (path : String)
  | compileOkLogged (texPath : String)
  | compileErrLogged (texPath : String)
  | compileExnLogged (texPath : String)
  | rasterInvoked (pdfPath pngPath : String)
  | rasterOkLogged (pdfPath : String)
  | rasterErrLogged (pdfPath : String)
deriving DecidableEq, Repr

/-- Embedding of `EquationProcessor.compile_latex_file`: the whole body
is inside `try … except Exception`, so a launch failure is logged
(`compileExnLogged`) and a nonzero exit is logged (`compileErrLogged`);
no outcome raises to the caller. -/
def compile_latex_file (texPath : String) (o : ProcOutcome) : List Event :=
  match o with
  | ProcOutcome.launchFailure => [Event.compileExnLogged texPath]
  | ProcOutcome.exit c =>
    if c = 0 then [Event.compileOkLogged texPath] else [Event.compileErrLogged texPath]

/-- Embedding of `EquationProcessor.convert_pdf_to_png`: only
`subprocess.CalledProcessError` (a nonzero exit of `magick`) is caught;
a launch failure (`FileNotFoundError` from `subprocess.run`) escapes to
the caller, which is modelled by the `some PyExn.fileNotFoundError`
component. -/
def convert_pdf_to_png (pdfPath pngPath : String) (o : ProcOutcome) : List Event × Option PyExn :=
  match o with
  | ProcOutcome.launchFailure =>
    ([Event.rasterInvoked pdfPath pngPath], some PyExn.fileNotFoundError)
  | ProcOutcome.exit c =>
    if c = 0 then ([Event.rasterInvoked pdfPath pngPath, Event.rasterOkLogged pdfPath], none)
    else ([Event.rasterInvoked pdfPath pngPath, Event.rasterErrLogged pdfPath], none)

/-- Fallback base name `f"equation_{i}"` for a record with an empty
requested name. -/
def fallbackName (i : Nat) : String := "equation_" ++ Nat.repr i

/-- One iteration of the `process_equations` loop for record `i`
(1-based): render the document, allocate a collision-free `.tex` name,
write the file, run the compiler, then run the rasterizer on the paths
obtained by `str.replace` on the document path.  `none` models the
probing loop not terminating within its fuel (shown elsewhere never to
happen with fuel `dir.length + 1`). -/
def processOne (outdir color : String) (dir : List String) (i : Nat) (rec : String × String)
    (co ro : ProcOutcome) : Option (List Event × Option PyExn × List String) :=
  let equation := rec.1
  let filename := rec.2
  let _latex_content := wrap_equation_in_latex equation color
  let base := clean_filename (if filename = "" then fallbackName i else filename)
  match allocateTex base dir (dir.length + 1) with
  | none => none
  | some texname =>
    let texPath := joinPath outdir texname
    let dirW := texname :: dir
    let evC := compile_latex_file texPath co
    let res := convert_pdf_to_png (pdfPathOf texPath) (pngPathOf texPath) ro
    some (Event.wroteDoc texPath :: (evC ++ res.1), res.2, dirW)

/-- The `for i, (equation, filename) in enumerate(equations, start=1)`
loop: records are processed strictly in order; an uncaught exception in
one iteration aborts the loop, discarding all remaining records. -/
def runLoop (outdir color : String) (oracle : Nat → ProcOutcome × ProcOutcome) :
    Nat → List (String × String) → List String →
      Option (List (List Event) × Option PyExn × List String)
  | _, [], dir => some ([], none, dir)
  | i, r :: rs, dir =>
    match processOne outdir color dir i r (oracle i).1 (oracle i).2 with
    | none => none
    | some (ev, some e, dirW) => some ([ev], some e, dirW)
    | some (ev, none, dirW) =>
      match runLoop outdir color oracle (i + 1) rs dirW with
      | none => none
      | some (evs, exn, dirF) => some (ev :: evs, exn, dirF)

/-- Embedding of `EquationProcessor.process_equations` from the
confirmation gate onward.  The result carries the per-record event
traces, the exception escaping the loop (if any) and whether
`cleanup_files` was reached (it is skipped both on a declined
confirmation and on an uncaught exception). -/
def process_equations (confirmed : Bool) (outdir color : String)
    (oracle : Nat → ProcOutcome × ProcOutcome) (recs : List (String × String))
    (dir0 : List String) : Option (List (List Event) × Option PyExn × Bool) :=
  if confirmed then
    match runLoop outdir color oracle 1 recs dir0 with
    | none => none
    | some (evs, exn, _) => some (evs, exn, exn.isNone)
  else some ([], none, false)

/-! ## Workspace cleanup (`cleanup_files`) -/

/-- The intermediate-file extensions swept by `cleanup_files`. -/
def intermediateExts : List String := [".log", ".aux", ".tex", ".pdf"]

/-- Python's `any(file.endswith(ext) for ext in file_extensions)`. -/
def isIntermediate (f : String) : Bool :=
  intermediateExts.any (fun e => e.data.isSuffixOf f.data)

/-- Embedding of `EquationProcessor.cleanup_files` over the flattened
`os.walk` file listing.  Each file is paired with whether `os.remove`
would succeed on it.  Result: the files actually removed (in order),
the counter value reached, and whether an exception was raised
(`os.remove` is not wrapped in any `try`, so the first failure aborts
the walk and the final count is never logged). -/
def cleanupWalk : List (String × Bool) → List String × Nat × Bool
  | [] => ([], 0, false)
  | (f, removable) :: rest =>
    if isIntermediate f then
      if removable then
        match cleanupWalk rest with
        | (rs, n, e) => (f :: rs, n + 1, e)
      else ([], 0, true)
    else cleanupWalk rest

/-- Decimal digit value of a digit character. -/
def decodeDigit (c : Char) : Nat := c.toNat - 48

/-- One step of reading a decimal numeral left to right. -/
def decodeStep (a : Nat) (c : Char) : Nat := 10 * a + decodeDigit c

/-! ## Proof layer -/

theorem decode_digitChar (d : Nat) (h : d < 10) : decodeDigit (Nat.digitChar d) = d := by
  interval_cases d <;> decide

theorem toDigitsCore_nil_acc (fuel : Nat) :
    ∀ (n : Nat) (acc : List Char),
      Nat.toDigitsCore 10 fuel n acc = Nat.toDigitsCore 10 fuel n [] ++ acc := by
  induction fuel with
  | zero => intro n acc; simp [Nat.toDigitsCore]
  | succ f ih =>
    intro n acc
    simp only [Nat.toDigitsCore]
    by_cases h : n / 10 = 0
    · simp [h]
    · simp only [if_neg h]
      rw [ih (n / 10) (Nat.digitChar (n % 10) :: acc),
        ih (n / 10) [Nat.digitChar (n % 10)]]
      simp

theorem foldl_decode_toDigitsCore (fuel : Nat) :
    ∀ n a, n < fuel →
      List.foldl decodeStep a (Nat.toDigitsCore 10 fuel n []) =
        a * 10 ^ (Nat.toDigitsCore 10 fuel n []).length + n := by
  induction fuel with
  | zero => intro n a h; exact absurd h (Nat.not_lt_zero n)
  | succ f ih =>
    intro n a h
    by_cases h0 : n / 10 = 0
    · have hn10 : n < 10 := (Nat.div_eq_zero_iff (by norm_num)).mp h0
      simp only [Nat.toDigitsCore, if_pos h0, List.foldl, List.length_cons,
        List.length_nil, decodeStep]
      rw [decode_digitChar (n % 10) (Nat.mod_lt n (by omega)), Nat.mod_eq_of_lt hn10]
      ring
    · have hpos : 0 < n := by
        rcases Nat.eq_zero_or_pos n with hz | hp
        · subst hz; simp at h0
        · exact hp
      have hlt : n / 10 < f := by
        have := Nat.div_lt_self hpos (by omega : (1:Nat) < 10)
        omega
      simp only [Nat.toDigitsCore, if_neg h0]
      rw [toDigitsCore_nil_acc, List.foldl_append, ih (n / 10) a hlt]
      simp only [List.foldl, List.length_append, List.length_cons, List.length_nil,
        decodeStep]
      rw [decode_digitChar (n % 10) (Nat.mod_lt n (by omega))]
      have hdm := Nat.div_add_mod n 10
      rw [pow_succ, ← mul_assoc]
      omega

theorem toDigits_decode (n : Nat) : List.foldl decodeStep 0 (Nat.toDigits 10 n) = n := by
  have h := foldl_decode_toDigitsCore (n + 1) n 0 (Nat.lt_succ_self n)
  simpa [Nat.toDigits] using h

theorem nat_repr_injective : Function.Injective Nat.repr := by
  intro m n h
  have hd : Nat.toDigits 10 m = Nat.toDigits 10 n := congrArg String.data h
  have h2 := congrArg (List.foldl decodeStep 0) hd
  rwa [toDigits_decode, toDigits_decode] at h2

theorem probeName_injective (base : String) : Function.Injective (probeName base) := by
  intro j k h
  unfold probeName at h
  have hd := congrArg String.data h
  simp only [String.data_append] at hd
  have h1 := List.append_cancel_right hd
  have h2 := List.append_cancel_left h1
  exact nat_repr_injective (String.ext h2)

theorem allocateTexAux_not_mem (base : String) (dir : List String) :
    ∀ fuel k f, allocateTexAux base dir fuel k = some f → f ∉ dir := by
  intro fuel
  induction fuel with
  | zero => intro k f h; simp [allocateTexAux] at h
  | succ fl ih =>
    intro k f h
    by_cases hm : probeName base k ∈ dir
    · simp only [allocateTexAux, if_pos hm] at h
      exact ih (k + 1) f h
    · simp only [allocateTexAux, if_neg hm, Option.some.injEq] at h
      subst h; exact hm

theorem allocateTex_not_mem (base : String) (dir : List String) (fuel : Nat) (f : String)
    (h : allocateTex base dir fuel = some f) : f ∉ dir := by
  unfold allocateTex at h
  by_cases hb : texName base ∈ dir
  · rw [if_pos hb] at h
    exact allocateTexAux_not_mem base dir fuel 1 f h
  · rw [if_neg hb, Option.some.injEq] at h
    subst h; exact hb

theorem allocateTexAux_first (base : String) (dir : List String) :
    ∀ fuel k f, allocateTexAux base dir fuel k = some f →
      ∃ j, k ≤ j ∧ f = probeName base j ∧
        ∀ i, k ≤ i → i < j → probeName base i ∈ dir := by
  intro fuel
  induction fuel with
  | zero => intro k f h; simp [allocateTexAux] at h
  | succ fl ih =>
    intro k f h
    by_cases hm : probeName base k ∈ dir
    · simp only [allocateTexAux, if_pos hm] at h
      obtain ⟨j, hkj, hf, hall⟩ := ih (k + 1) f h
      refine ⟨j, by omega, hf, ?_⟩
      intro i hki hij
      rcases Nat.eq_or_lt_of_le hki with hik | hik
      · subst hik; exact hm
      · exact hall i hik hij
    · simp only [allocateTexAux, if_neg hm, Option.some.injEq] at h
      exact ⟨k, Nat.le_refl k, h.symm, fun i h1 h2 => absurd (Nat.lt_of_le_of_lt h1 h2)
        (Nat.lt_irrefl k)⟩

theorem allocateTexAux_none (base : String) (dir : List String) :
    ∀ fuel k, allocateTexAux base dir fuel k = none →
      ∀ j, k ≤ j → j < k + fuel → probeName base j ∈ dir := by
  intro fuel
  induction fuel with
  | zero => intro k _ j h1 h2; omega
  | succ fl ih =>
    intro k h j h1 h2
    by_cases hm : probeName base k ∈ dir
    · simp only [allocateTexAux, if_pos hm] at h
      rcases Nat.eq_or_lt_of_le h1 with hjk | hjk
      · subst hjk; exact hm
      · exact ih (k + 1) h j hjk (by omega)
    · simp only [allocateTexAux, if_neg hm] at h
      exact Option.noConfusion h

theorem allocateTex_total (base : String) (dir : List String) :
    ∃ f, allocateTex base dir (dir.length + 1) = some f := by
  by_cases hb : texName base ∈ dir
  · unfold allocateTex
    rw [if_pos hb]
    cases hx : allocateTexAux base dir (dir.length + 1) 1 with
    | some f => exact ⟨f, rfl⟩
    | none =>
      exfalso
      have hall := allocateTexAux_none base dir (dir.length + 1) 1 hx
      have hsub : (List.range' 1 (dir.length + 1)).map (probeName base) ⊆ dir := by
        intro x hxm
        simp only [List.mem_map, List.mem_range'_1] at hxm
        obtain ⟨j, ⟨hj1, hj2⟩, rfl⟩ := hxm
        exact hall j hj1 (by omega)
      have hnd : ((List.range' 1 (dir.length + 1)).map (probeName base)).Nodup :=
        (List.nodup_range' 1 (dir.length + 1)).map (probeName_injective base)
      have hle := (List.subperm_of_subset hnd hsub).length_le
      simp only [List.length_map, List.length_range'] at hle
      omega
  · exact ⟨texName base, by simp [allocateTex, hb]⟩

instance {ε α : Type} [DecidableEq ε] [DecidableEq α] : DecidableEq (Except ε α) := by
  intro a b
  cases a with
  | error e =>
    cases b with
    | error f =>
      exact if h : e = f then isTrue (by rw [h]) else isFalse (fun hh => h (by injection hh))
    | ok bb => exact isFalse (fun h => Except.noConfusion h)
  | ok aa =>
    cases b with
    | error f => exact isFalse (fun h => Except.noConfusion h)
    | ok bb =>
      exact if h : aa = bb then isTrue (by rw [h]) else isFalse (fun hh => h (by injection hh))

theorem readRows_eq_filterMap : ∀ rows : List (List String),
    (∀ r ∈ rows, r ≠ []) →
    (∀ r ∈ rows, r.head? = some ("1") → 3 ≤ r.length) →
    readRows rows = Except.ok (rows.filterMap rowRecord)
  | [], _, _ => rfl
  | r :: rs, h1, h2 => by
    have hr1 : r ≠ [] := h1 r (List.mem_cons_self r rs)
    have ihe := readRows_eq_filterMap rs (fun x hx => h1 x (List.mem_cons_of_mem r hx))
      (fun x hx => h2 x (List.mem_cons_of_mem r hx))
    cases r with
    | nil => exact absurd rfl hr1
    | cons flag rest =>
      by_cases hf : flag = "1"
      · subst hf
        have hlen : 3 ≤ ((("1") : String) :: rest).length :=
          h2 _ (List.mem_cons_self _ _) rfl
        cases rest with
        | nil => simp at hlen
        | cons b rest2 =>
          cases rest2 with
          | nil => simp at hlen
          | cons n t => simp [readRows, rowRecord, ihe, List.filterMap_cons]
      · have hrr : rowRecord (flag :: rest) = none := by
          cases rest with
          | nil => rfl
          | cons b rest2 =>
            cases rest2 with
            | nil => rfl
            | cons n t => simp [rowRecord, hf]
        simp [readRows, hf, ihe, List.filterMap_cons, hrr]

theorem readRows_cond_of_ok : ∀ (rows : List (List String)) (l : List (String × String)),
    readRows rows = Except.ok l →
    ∀ r ∈ rows, r ≠ [] ∧ (r.head? = some ("1") → 3 ≤ r.length)
  | [], _, _ => by simp
  | r :: rs, l, h => by
    cases r with
    | nil => simp [readRows] at h
    | cons flag rest =>
      by_cases hf : flag = "1"
      · subst hf
        cases rest with
        | nil => simp [readRows] at h
        | cons b rest2 =>
          cases rest2 with
          | nil => simp [readRows] at h
          | cons n t =>
            simp only [readRows] at h
            cases hrs : readRows rs with
            | error e => rw [hrs] at h; simp at h
            | ok tl =>
              intro x hx
              rcases List.mem_cons.mp hx with hx1 | hx2
              · subst hx1; exact ⟨by simp, by simp⟩
              · exact readRows_cond_of_ok rs tl hrs x hx2
      · intro x hx
        rcases List.mem_cons.mp hx with hx1 | hx2
        · subst hx1
          refine ⟨by simp, ?_⟩
          intro hh
          exact absurd (by simpa using hh) hf
        · have h' : readRows rs = Except.ok l := by simpa [readRows, hf] using h
          exact readRows_cond_of_ok rs l h' x hx2

/-- C2: load(path) emits a record exactly for each non-header row whose
field 0 equals the literal "1", with body = trim(field 1) and
requestedName = trim(field 2); every row whose field 0 is not "1" is
skipped without error and never appears in the output, and the output
sequence preserves input row order (the output is the order-preserving
`filterMap` of `rowRecord` over the non-header rows). -/
theorem c2_loader_filter_order (header : List String) (rows : List (List String))
    (h1 : ∀ r ∈ rows, r ≠ [])
    (h2 : ∀ r ∈ rows, r.head? = some ("1") → 3 ≤ r.length) :
    read_equation_list (some (header :: rows)) = Except.ok (rows.filterMap rowRecord) ∧
      ∀ r ∈ rows, r.head? ≠ some ("1") → rowRecord r = none := by
  constructor
  · exact readRows_eq_filterMap rows h1 h2
  · intro r _ hne
    cases r with
    | nil => rfl
    | cons flag rest =>
      have hf : flag ≠ "1" := by simpa using hne
      cases rest with
      | nil => rfl
      | cons b rest2 =>
        cases rest2 with
        | nil => rfl
        | cons n t => simp [rowRecord, hf]

/-- Witness for C2 at a concrete table: a valid row is emitted with
trimmed fields, a "0"-flagged row and a short "2"-flagged row are
skipped, and order is preserved. -/
theorem c2_loader_filter_order_witness :
    read_equation_list
        (some ([[("flag"), ("eq"), ("name")], [("1"), (" a "), ("nm")],
          [("0"), ("b"), ("c")], [("2")]])) =
      Except.ok ([(("a"), ("nm"))]) := by
  have h := c2_loader_filter_order ([("flag"), ("eq"), ("name")])
    ([[("1"), (" a "), ("nm")], [("0"), ("b"), ("c")], [("2")]]) (by decide) (by decide)
  rw [h.1]
  decide

/-- C3 counterexample: the row ["0"] has fewer than 3 fields, yet
loading succeeds (with an empty record list) instead of failing,
because the field-count is only consulted on rows whose flag is "1". -/
theorem c3_counterexample :
    read_equation_list (some ([[("f"), ("e"), ("n")], [("0")]])) = Except.ok ([]) ∧
      ([("0")] : List String).length < 3 := by
  exact ⟨by decide, by decide⟩

/-- C3 (amended): load(path) succeeds iff the file can be opened, has a
header row, and every non-header row is nonempty and, when its field 0
equals "1", has at least 3 fields; equivalently it fails with an error
exactly when the file cannot be opened, is empty, contains an empty
row, or contains a "1"-flagged row with fewer than 3 fields.  A
nonempty row whose field 0 is not "1" never causes an error, whatever
its field count. -/
theorem c3_loader_error_iff (input : Option (List (List String))) :
    (∃ recs, read_equation_list input = Except.ok recs) ↔
      ∃ header rows, input = some (header :: rows) ∧
        ∀ r ∈ rows, r ≠ [] ∧ (r.head? = some ("1") → 3 ≤ r.length) := by
  cases input with
  | none => simp [read_equation_list]
  | some file =>
    cases file with
    | nil => simp [read_equation_list]
    | cons header rows =>
      constructor
      · rintro ⟨recs, hr⟩
        exact ⟨header, rows, rfl, readRows_cond_of_ok rows recs hr⟩
      · rintro ⟨h2, rows2, heq, hall⟩
        have hr : rows = rows2 := by
          injection heq with heq2
          exact (List.cons.injEq _ _ _ _ ▸ heq2).2.symm ▸ rfl
        subst hr
        exact ⟨rows.filterMap rowRecord,
          readRows_eq_filterMap rows (fun x hx => (hall x hx).1)
            (fun x hx => (hall x hx).2)⟩

/-- Witness for C3 (amended): a table whose only data row is
"1"-flagged with three fields loads successfully. -/
theorem c3_loader_error_iff_witness :
    ∃ recs, read_equation_list (some ([[("h")], [("1"), ("b"), ("c")]])) =
      Except.ok recs := by
  exact (c3_loader_error_iff (some ([[("h")], [("1"), ("b"), ("c")]]))).mpr
    ⟨[("h")], [[("1"), ("b"), ("c")]], rfl, by decide⟩

/-- C4: sanitize is idempotent and its output contains only characters
from the allowed set (letters, digits, underscore, dot). -/
theorem c4_sanitize_idempotent_charset (s : String) :
    clean_filename (clean_filename s) = clean_filename s ∧
      (clean_filename s).data.all isAllowedChar = true := by
  constructor
  · show String.mk ((s.data.filter isAllowedChar).filter isAllowedChar) =
      String.mk (s.data.filter isAllowedChar)
    rw [List.filter_filter]
    simp
  · simp only [List.all_eq_true]
    intro c hc
    exact (List.mem_filter.mp hc).2

/-- C6: for a colour string with no leading '#', prepending '#' yields
an identical rendered document, because the leading '#' is stripped
before substitution. -/
theorem c6_color_prefix_equiv (eq c : String) (h : c.data.head? ≠ some '#') :
    wrap_equation_in_latex eq (("#") ++ c) = wrap_equation_in_latex eq c := by
  unfold wrap_equation_in_latex
  have hd : (("#") ++ c).data = '#' :: c.data := by
    rw [String.data_append]
    rfl
  have hs : lstripHash (("#") ++ c) = lstripHash c := by
    unfold lstripHash
    rw [hd]
    simp [List.dropWhile_cons]
  rw [hs]

/-- Witness for C6 at the program's default colour. -/
theorem c6_color_prefix_equiv_witness :
    (("2B363A") : String).data.head? ≠ some '#' ∧
      wrap_equation_in_latex ("x^2") ("#2B363A") =
        wrap_equation_in_latex ("x^2") ("2B363A") := by
  refine ⟨by decide, ?_⟩
  have he : (("#") : String) ++ ("2B363A") = ("#2B363A") := by decide
  have h := c6_color_prefix_equiv ("x^2") ("2B363A") (by decide)
  rw [← he]
  exact h

/-- C9: an openable but empty input file is rejected: the header-skip
step raises StopIteration instead of returning an empty record
sequence. -/
theorem c9_empty_file_rejected :
    read_equation_list (some []) = Except.error LoadError.stopIteration := rfl

/-- C5: the collision-resolution loop returns `base.tex` unchanged when
no such file exists; otherwise it returns the first unclaimed of
`base_1.tex`, `base_2.tex`, …; the returned name never collides with an
existing file; fuel `dir.length + 1` always suffices for the loop to
terminate with a result; and two sequential allocations of the same
base (the first allocated file having been written to the directory)
return distinct names. -/
theorem c5_allocate_spec (base : String) (dir : List String) (fuel : Nat) :
    (texName base ∉ dir → allocateTex base dir fuel = some (texName base)) ∧
    (∀ f, allocateTex base dir fuel = some f → f ∉ dir) ∧
    (∀ f, allocateTex base dir fuel = some f → f = texName base ∨
      ∃ k, 1 ≤ k ∧ f = probeName base k ∧ texName base ∈ dir ∧
        ∀ j, 1 ≤ j → j < k → probeName base j ∈ dir) ∧
    (∃ f, allocateTex base dir (dir.length + 1) = some f) ∧
    (∀ fuel2 f1 f2, allocateTex base dir fuel = some f1 →
      allocateTex base (f1 :: dir) fuel2 = some f2 → f1 ≠ f2) := by
  refine ⟨?_, ?_, ?_, allocateTex_total base dir, ?_⟩
  · intro hb
    simp [allocateTex, hb]
  · exact fun f h => allocateTex_not_mem base dir fuel f h
  · intro f h
    unfold allocateTex at h
    by_cases hb : texName base ∈ dir
    · rw [if_pos hb] at h
      obtain ⟨j, h1j, hf, hall⟩ := allocateTexAux_first base dir fuel 1 f h
      exact Or.inr ⟨j, h1j, hf, hb, fun i hi1 hij => hall i hi1 hij⟩
    · rw [if_neg hb, Option.some.injEq] at h
      exact Or.inl h.symm
  · intro fuel2 f1 f2 h1 h2 heq
    have hnm := allocateTex_not_mem base (f1 :: dir) fuel2 f2 h2
    apply hnm
    rw [← heq]
    exact List.mem_cons_self f1 dir

/-- Witness for C5: with `eq.tex` already on disk the loop probes and
returns `eq_1.tex`, which collides with nothing; after that file is
created, allocating the same base again returns the distinct
`eq_2.tex`. -/
theorem c5_allocate_spec_witness :
    allocateTex ("eq") ([("eq.tex")]) 2 = some (("eq_1.tex")) ∧
      (("eq_1.tex") : String) ∉ ([("eq.tex")] : List String) ∧
      allocateTex ("eq") ([("eq_1.tex"), ("eq.tex")]) 3 = some (("eq_2.tex")) ∧
      (("eq_1.tex") : String) ≠ (("eq_2.tex") : String) := by
  have t := c5_allocate_spec ("eq") ([("eq.tex")]) 2
  refine ⟨by decide, ?_, by decide, ?_⟩
  · exact t.2.1 (("eq_1.tex")) (by decide)
  · exact t.2.2.2.2 3 (("eq_1.tex")) (("eq_2.tex")) (by decide) (by decide)

theorem isPrefixOf_self (p : List Char) : p.isPrefixOf p = true := by
  induction p with
  | nil => rfl
  | cons c cs ih => simp [List.isPrefixOf, ih]

theorem replaceAllAux_nil (p r : List Char) : ∀ fuel, replaceAllAux p r fuel [] = []
  | 0 => rfl
  | _ + 1 => rfl

theorem replaceAllAux_append_of_no_occ (p r : List Char) (hp : p ≠ []) :
    ∀ (a : List Char) (fuel : Nat), (a ++ p).length ≤ fuel →
      (∀ i, i < a.length → p.isPrefixOf ((a ++ p).drop i) = false) →
      replaceAllAux p r fuel (a ++ p) = a ++ r := by
  intro a
  induction a with
  | nil =>
    intro fuel hf _
    cases p with
    | nil => exact absurd rfl hp
    | cons c cs =>
      cases fuel with
      | zero => simp at hf
      | succ f =>
        simp only [List.nil_append]
        show replaceAllAux (c :: cs) r (f + 1) (c :: cs) = [] ++ r
        simp only [replaceAllAux, isPrefixOf_self, if_true]
        rw [List.drop_length, replaceAllAux_nil]
        simp
  | cons c a' ih =>
    intro fuel hf hocc
    have h0 : p.isPrefixOf (c :: (a' ++ p)) = false := by
      have := hocc 0 (by simp)
      simpa using this
    cases fuel with
    | zero =>
      exfalso
      simp at hf
    | succ f =>
      simp only [List.cons_append]
      show replaceAllAux p r (f + 1) (c :: (a' ++ p)) = c :: (a' ++ r)
      simp only [replaceAllAux, h0, Bool.false_eq_true, if_false]
      congr 1
      apply ih f
      · simp only [List.cons_append, List.length_cons] at hf
        simpa using Nat.le_of_succ_le_succ hf
      · intro i hi
        have := hocc (i + 1) (by simpa using Nat.succ_lt_succ hi)
        simpa [List.drop_succ_cons] using this

theorem isPrefixOf_drop_containsSub (p : List Char) :
    ∀ (a : List Char) (i : Nat), p.isPrefixOf (a.drop i) = true → containsSub p a = true := by
  intro a
  induction a with
  | nil =>
    intro i h
    cases p with
    | nil => rfl
    | cons x xs => simp [List.drop_nil] at h
  | cons c cs ih =>
    intro i h
    cases i with
    | zero =>
      simp only [List.drop_zero] at h
      simp [containsSub, h]
    | succ j =>
      have := ih j (by simpa [List.drop_succ_cons] using h)
      simp [containsSub, this]

theorem isPrefixOf_append_left (p : List Char) :
    ∀ (a b : List Char), p.length ≤ a.length → p.isPrefixOf (a ++ b) = true →
      p.isPrefixOf a = true := by
  induction p with
  | nil => intro a b _ _; simp
  | cons x xs ih =>
    intro a b hl h
    cases a with
    | nil => simp at hl
    | cons c cs =>
      simp only [List.cons_append, List.isPrefixOf, Bool.and_eq_true] at h ⊢
      exact ⟨h.1, ih cs b (by simpa using hl) h.2⟩

theorem texChars_eq : texExt.data = ['.', 't', 'e', 'x'] := rfl

theorem tex_no_boundary_occ :
    ∀ t : List Char, t ≠ [] → texExt.data.isPrefixOf (t ++ texExt.data) = true →
      texExt.data.isPrefixOf t = true := by
  intro t ht h
  rw [texChars_eq] at h ⊢
  cases t with
  | nil => exact absurd rfl ht
  | cons c1 t1 =>
    cases t1 with
    | nil =>
      exfalso
      simp only [List.cons_append, List.nil_append, List.isPrefixOf,
        Bool.and_eq_true, beq_iff_eq] at h
      exact absurd h.2.1 (by decide)
    | cons c2 t2 =>
      cases t2 with
      | nil =>
        exfalso
        simp only [List.cons_append, List.nil_append, List.isPrefixOf,
          Bool.and_eq_true, beq_iff_eq] at h
        exact absurd h.2.2.1 (by decide)
      | cons c3 t3 =>
        cases t3 with
        | nil =>
          exfalso
          simp only [List.cons_append, List.nil_append, List.isPrefixOf,
            Bool.and_eq_true, beq_iff_eq] at h
          exact absurd h.2.2.2.1 (by decide)
        | cons c4 t4 =>
          simp only [List.cons_append, List.isPrefixOf, Bool.and_eq_true,
            beq_iff_eq] at h ⊢
          exact ⟨h.1, h.2.1, h.2.2.1, h.2.2.2.1, trivial⟩

theorem no_occ_boundary (a : List Char) (ha : containsSub texExt.data a = false) :
    ∀ i, i < a.length → texExt.data.isPrefixOf ((a ++ texExt.data).drop i) = false := by
  intro i hi
  cases hb : texExt.data.isPrefixOf ((a ++ texExt.data).drop i) with
  | false => rfl
  | true =>
    exfalso
    have hdrop : (a ++ texExt.data).drop i = a.drop i ++ texExt.data := by
      rw [List.drop_append_eq_append_drop]
      have h0 : i - a.length = 0 := by omega
      rw [h0]
      simp
    rw [hdrop] at hb
    have hne : a.drop i ≠ [] := by
      intro hnil
      have hlen := List.length_drop i a
      rw [hnil] at hlen
      simp at hlen
      omega
    have hp := tex_no_boundary_occ (a.drop i) hne hb
    have hcs := isPrefixOf_drop_containsSub texExt.data a i hp
    rw [ha] at hcs
    exact Bool.noConfusion hcs

theorem pyReplace_ext_of_no_occ (a rext : String)
    (ha : containsSub texExt.data a.data = false) :
    pyReplace (a ++ texExt) texExt rext = a ++ rext := by
  unfold pyReplace
  have hd : (a ++ texExt).data = a.data ++ texExt.data := String.data_append a texExt
  rw [hd]
  rw [replaceAllAux_append_of_no_occ texExt.data rext.data (by rw [texChars_eq]; simp)
    a.data (a.data ++ texExt.data).length (Nat.le_refl _) (no_occ_boundary a.data ha)]
  have hr : (a ++ rext).data = a.data ++ rext.data := String.data_append a rext
  rw [← hr]

theorem string_append_assoc (a b c : String) : (a ++ b) ++ c = a ++ (b ++ c) := by
  apply String.ext
  simp [String.data_append, List.append_assoc]

theorem joinPath_append_ext (outdir base ext : String) :
    joinPath outdir (base ++ ext) = joinPath outdir base ++ ext := by
  unfold joinPath
  rw [string_append_assoc (outdir ++ ("/")) base ext]

/-- C10 counterexample: the base name "a" contains no ".tex", yet when
the output-directory path itself contains ".tex" the derived page path
is not outputDir/a.pdf — `str.replace` rewrites the directory part too,
yielding "out.pdf/a.pdf". -/
theorem c10_counterexample :
    containsSub texExt.data ((("a") : String)).data = false ∧
      pdfPathOf (joinPath ("out.tex") (texName ("a"))) = ("out.pdf/a.pdf") ∧
      pdfPathOf (joinPath ("out.tex") (texName ("a"))) ≠
        joinPath ("out.tex") (("a") ++ pdfExt) := by
  exact ⟨by decide, by decide, by decide⟩

/-- C10 (amended): artifact name correspondence holds whenever the full
joined document path outputDir/base contains ".tex" nowhere (in
particular the base name and the output directory each avoid ".tex"):
then the document, page and image paths are exactly outputDir/base.tex,
outputDir/base.pdf and outputDir/base.png.  A requested name containing
".tex" (which `sanitize` permits, since it keeps dots) breaks the
correspondence because the paths are derived by substring replacement
of ".tex" over the whole path. -/
theorem c10_path_correspondence_amended (outdir base : String)
    (h : containsSub texExt.data ((joinPath outdir base)).data = false) :
    joinPath outdir (texName base) = joinPath outdir base ++ texExt ∧
      pdfPathOf (joinPath outdir (texName base)) = joinPath outdir (base ++ pdfExt) ∧
      pngPathOf (joinPath outdir (texName base)) = joinPath outdir (base ++ pngExt) := by
  have hj : joinPath outdir (texName base) = joinPath outdir base ++ texExt :=
    joinPath_append_ext outdir base texExt
  refine ⟨hj, ?_, ?_⟩
  · rw [hj, joinPath_append_ext outdir base pdfExt]
    exact pyReplace_ext_of_no_occ (joinPath outdir base) pdfExt h
  · rw [hj, joinPath_append_ext outdir base pngExt]
    exact pyReplace_ext_of_no_occ (joinPath outdir base) pngExt h

/-- Witness for C10 (amended) at a benign directory and base name. -/
theorem c10_path_correspondence_amended_witness :
    containsSub texExt.data ((joinPath ("out") ("a"))).data = false ∧
      pdfPathOf (joinPath ("out") (texName ("a"))) = joinPath ("out") (("a") ++ pdfExt) ∧
      pngPathOf (joinPath ("out") (texName ("a"))) = joinPath ("out") (("a") ++ pngExt) := by
  have h := c10_path_correspondence_amended ("out") ("a") (by decide)
  exact ⟨by decide, h.2.1, h.2.2⟩

theorem processOne_exit (outdir color : String) (dir : List String) (i : Nat)
    (rec : String × String) (co : ProcOutcome) (c : Nat) :
    ∃ ev f, processOne outdir color dir i rec co (ProcOutcome.exit c) =
      some (ev, none, f :: dir) := by
  obtain ⟨f, hf⟩ :=
    allocateTex_total (clean_filename (if rec.2 = "" then fallbackName i else rec.2)) dir
  refine ⟨Event.wroteDoc (joinPath outdir f) ::
    (compile_latex_file (joinPath outdir f) co ++
      (convert_pdf_to_png (pdfPathOf (joinPath outdir f)) (pngPathOf (joinPath outdir f))
        (ProcOutcome.exit c)).1), f, ?_⟩
  by_cases hc : c = 0 <;> simp [processOne, hf, convert_pdf_to_png, hc]

/-- C7: for every record, for every compiler outcome — launch failure,
zero or nonzero exit code — the iteration still reaches the rasterize
stage: the rasterizer invocation event is always present in the
record's trace; the pipeline never consults the compile result before
calling the rasterizer. -/
theorem c7_raster_always_invoked (outdir color : String) (dir : List String) (i : Nat)
    (rec : String × String) (co ro : ProcOutcome) :
    ∃ ev exn dirW, processOne outdir color dir i rec co ro = some (ev, exn, dirW) ∧
      ∃ p q, Event.rasterInvoked p q ∈ ev := by
  obtain ⟨f, hf⟩ :=
    allocateTex_total (clean_filename (if rec.2 = "" then fallbackName i else rec.2)) dir
  simp only [processOne, hf]
  refine ⟨_, _, _, rfl, pdfPathOf (joinPath outdir f), pngPathOf (joinPath outdir f), ?_⟩
  cases ro with
  | launchFailure => simp [convert_pdf_to_png]
  | exit c =>
    by_cases hc : c = 0 <;> simp [convert_pdf_to_png, hc]

/-- C1 counterexample: with two loaded records, a rasterizer launch
failure (missing `magick` executable) on the first record raises
FileNotFoundError to the caller: only one record's trace exists, the
second record is never processed, and the cleanup sweep never runs —
contradicting the claim that every per-record failure (including a
rasterizer launch failure) is isolated. -/
theorem c1_counterexample :
    process_equations true ("out") ("#2B363A")
        (fun i => (ProcOutcome.exit 0,
          if i = 1 then ProcOutcome.launchFailure else ProcOutcome.exit 0))
        ([(("x"), ("")), (("y"), (""))]) ([]) =
      some ([[Event.wroteDoc ("out/equation_1.tex"),
          Event.compileOkLogged ("out/equation_1.tex"),
          Event.rasterInvoked ("out/equation_1.pdf") ("out/equation_1.png")]],
        some PyExn.fileNotFoundError, false) := by
  decide

theorem runLoop_total_no_launch (outdir color : String)
    (oracle : Nat → ProcOutcome × ProcOutcome)
    (h : ∀ i, (oracle i).2 ≠ ProcOutcome.launchFailure) :
    ∀ (recs : List (String × String)) (i : Nat) (dir : List String),
      ∃ evs dirF, runLoop outdir color oracle i recs dir = some (evs, none, dirF) ∧
        evs.length = recs.length := by
  intro recs
  induction recs with
  | nil => intro i dir; exact ⟨[], dir, rfl, rfl⟩
  | cons rec rs ih =>
    intro i dir
    cases hro : (oracle i).2 with
    | launchFailure => exact absurd hro (h i)
    | exit c =>
      obtain ⟨ev, f, hpo⟩ := processOne_exit outdir color dir i rec (oracle i).1 c
      obtain ⟨evs, dirF, hrl, hlen⟩ := ih (i + 1) (f :: dir)
      refine ⟨ev :: evs, dirF, ?_, by simp [hlen]⟩
      rw [← hro] at hpo
      simp [runLoop, hpo, hrl]

/-- C1 (amended): per-record failure isolation holds for every
per-record failure except a rasterizer launch failure: as long as the
rasterizer can always be spawned (its outcome is an exit code, zero or
not — and the compiler's outcome is arbitrary, including launch
failure), every record is processed, no exception reaches the caller,
and the cleanup sweep runs.  A rasterizer launch failure, by contrast,
escapes as FileNotFoundError and aborts the remaining records (see the
counterexample). -/
theorem c1_per_record_isolation_amended (outdir color : String)
    (oracle : Nat → ProcOutcome × ProcOutcome) (recs : List (String × String))
    (dir0 : List String)
    (h : ∀ i, (oracle i).2 ≠ ProcOutcome.launchFailure) :
    ∃ evs, process_equations true outdir color oracle recs dir0 =
      some (evs, none, true) ∧ evs.length = recs.length := by
  obtain ⟨evs, dirF, hrl, hlen⟩ := runLoop_total_no_launch outdir color oracle h recs 1 dir0
  exact ⟨evs, by simp [process_equations, hrl], hlen⟩

/-- Witness for C1 (amended): both the compiler and the rasterizer exit
nonzero on the first record, yet both records are processed and cleanup
runs. -/
theorem c1_per_record_isolation_amended_witness :
    ∃ evs, process_equations true ("out") ("#000000")
        (fun i => (ProcOutcome.exit (if i = 1 then 1 else 0),
          ProcOutcome.exit (if i = 1 then 1 else 0)))
        ([(("x"), ("")), (("y"), (""))]) ([]) = some (evs, none, true) ∧
      evs.length = 2 := by
  obtain ⟨evs, h1, h2⟩ := c1_per_record_isolation_amended ("out") ("#000000")
    (fun i => (ProcOutcome.exit (if i = 1 then 1 else 0),
      ProcOutcome.exit (if i = 1 then 1 else 0)))
    ([(("x"), ("")), (("y"), (""))]) ([]) (by intro i; simp)
  exact ⟨evs, h1, by simpa using h2⟩

/-- C8 counterexample: `os.remove` is not wrapped in any try, so a
deletion failure on the first matching file aborts the whole sweep: the
second matching file is never removed and no total count is reported —
contradicting the claim that a failure affects that file only. -/
theorem c8_counterexample :
    isIntermediate ("b.aux") = true ∧
      cleanupWalk ([(("a.log"), false), (("b.aux"), true)]) = ([], 0, true) := by
  exact ⟨by decide, by decide⟩

/-- C8 (amended): when every removal succeeds, the sweep removes
exactly the matching files in input order and reports their count; but
a single deletion failure aborts the sweep at that file: the files
already visited stay removed, no later file is visited or removed, and
no total count is reported. -/
theorem c8_sweep_amended :
    (∀ files : List (String × Bool), (∀ x ∈ files, x.2 = true) →
      cleanupWalk files =
        ((files.filter (fun x => isIntermediate x.1)).map Prod.fst,
          (files.filter (fun x => isIntermediate x.1)).length, false)) ∧
    (∀ (pre post : List (String × Bool)) (f : String),
      (∀ x ∈ pre, x.2 = true) → isIntermediate f = true →
      cleanupWalk (pre ++ (f, false) :: post) =
        ((pre.filter (fun x => isIntermediate x.1)).map Prod.fst,
          (pre.filter (fun x => isIntermediate x.1)).length, true)) := by
  constructor
  · intro files
    induction files with
    | nil => intro _; rfl
    | cons x xs ih =>
      intro h
      have hx : x.2 = true := h x (List.mem_cons_self x xs)
      have ihe := ih (fun y hy => h y (List.mem_cons_of_mem x hy))
      obtain ⟨f, b⟩ := x
      simp only at hx
      subst hx
      by_cases hi : isIntermediate f
      · simp [cleanupWalk, hi, ihe, List.filter_cons]
      · simp [cleanupWalk, hi, ihe, List.filter_cons]
  · intro pre
    induction pre with
    | nil =>
      intro post f _ hf
      simp [cleanupWalk, hf]
    | cons x xs ih =>
      intro post f h hf
      have hx : x.2 = true := h x (List.mem_cons_self x xs)
      have ihe := ih post f (fun y hy => h y (List.mem_cons_of_mem x hy)) hf
      obtain ⟨g, b⟩ := x
      simp only at hx
      subst hx
      by_cases hi : isIntermediate g
      · simp [cleanupWalk, hi, ihe, List.filter_cons]
      · simp [cleanupWalk, hi, ihe, List.filter_cons]

/-- Witness for C8 (amended): a clean sweep removes the one matching
file and reports count 1; a sweep hitting an unremovable matching file
removes only the files before it and reports nothing. -/
theorem c8_sweep_amended_witness :
    cleanupWalk ([(("a.log"), true), (("b.png"), true)]) = ([("a.log")], 1, false) ∧
      cleanupWalk (([(("a.log"), true)]) ++ (("b.tex"), false) :: ([(("c.pdf"), true)])) =
        ([("a.log")], 1, true) := by
  constructor
  · rw [(c8_sweep_amended).1 ([(("a.log"), true), (("b.png"), true)]) (by decide)]
    decide
  · rw [(c8_sweep_amended).2 ([(("a.log"), true)]) ([(("c.pdf"), true)]) ("b.tex")
      (by decide) (by decide)]
    decide

end LatexToPng
